import Mathlib

/-!
Verification development for the MC_AGENT repository (src/agent.py).

The agent watches a game server, emits presence/metrics events, signs and
posts them to an ingestion endpoint, and falls back to a durable file-backed
queue drained by a background loop with adaptive backoff.

This file shallowly embeds the relevant parts of `src/agent.py` in Lean:

* a JSON value model (strings, integers, objects) together with executable
  models of Python's `json.dumps(obj, separators=(",", ":"))` serializer and
  of `json.load`'s parser, restricted to the JSON subset the agent produces
  (ASCII-escaped strings, decimal integers, objects); the floating-point
  readings of `metrics_snapshot` are modeled as integers, since Python's
  float repr round-trip is a stdlib guarantee orthogonal to this code;
* `payload` / the five event constructors (lines 62-65 and call sites);
* `sign_body` / `http_send` / `send_or_queue` (lines 35-43, 107-129), with
  the HMAC-SHA256 hex digest of the `hmac`/`hashlib` libraries abstracted as
  a function parameter, and the network outcome as an oracle;
* the durable queue `queue_push` / `queue_pop_one` / `queue_delete`
  (lines 67-104) and the drain loop body `queue_drain_loop` (lines 131-145);
* the log-line counter update of `detect_player_events` (lines 186-200) and
  the metrics-emission decision of `metrics_loop` (lines 202-215).

Rendered JSON is pure ASCII (`ensure_ascii` is the `json.dumps` default), so
byte strings are modeled as `List Char` whose code points coincide with the
transmitted bytes.
-/

set_option maxHeartbeats 1600000

namespace MCAgent

/-! ## JSON values

The agent only ever serializes dicts whose values are strings, ints and one
nested dict (the metrics snapshot), so the model covers exactly those. -/

mutual

/-- A JSON value of the shape `src/agent.py` serializes: a string, an
integer, or an object with insertion-ordered fields. -/
inductive Json where
  | jstr : String → Json
  | jint : Int → Json
  | jobj : JFields → Json

/-- Insertion-ordered fields of a JSON object (a Python dict). -/
inductive JFields where
  | nil : JFields
  | cons : String → Json → JFields → JFields

end

/-! ## Serializer: `json.dumps(obj, separators=(",", ":"))` -/

/-- Lowercase hex digit, as produced by Python's `'\u%04x' % code`. -/
def hexDigitChar (n : Nat) : Char :=
  if n < 10 then Char.ofNat (48 + n) else Char.ofNat (87 + n)

/-- The four hex digits of a code unit below 0x10000. -/
def hex4 (n : Nat) : List Char :=
  [hexDigitChar (n / 4096 % 16), hexDigitChar (n / 256 % 16),
   hexDigitChar (n / 16 % 16), hexDigitChar (n % 16)]

/-- A `\uXXXX` escape. -/
def uEsc (n : Nat) : List Char :=
  '\\' :: 'u' :: hex4 n

/-- Escape one character the way `json.dumps` does with its default
`ensure_ascii=True`: printable ASCII other than quote and backslash is
literal, the five short escapes are used for their control characters, every
other character becomes `\uXXXX` (a surrogate pair above 0xFFFF). -/
def escChar (c : Char) : List Char :=
  if c = '"' then ['\\', '"']
  else if c = '\\' then ['\\', '\\']
  else if c = Char.ofNat 8 then ['\\', 'b']
  else if c = Char.ofNat 9 then ['\\', 't']
  else if c = Char.ofNat 10 then ['\\', 'n']
  else if c = Char.ofNat 12 then ['\\', 'f']
  else if c = Char.ofNat 13 then ['\\', 'r']
  else if 32 ≤ c.toNat ∧ c.toNat ≤ 126 then [c]
  else if c.toNat < 65536 then uEsc c.toNat
  else uEsc (55296 + (c.toNat - 65536) / 1024) ++ uEsc (56320 + (c.toNat - 65536) % 1024)

/-- Escape a character list. -/
def escList : List Char → List Char
  | [] => []
  | c :: cs => escChar c ++ escList cs

/-- A JSON string literal: quote, escaped body, quote. -/
def renderString (s : String) : List Char :=
  '"' :: (escList s.toList ++ ['"'])

/-- Decimal digits of a natural number, most significant first
(Python's `str` on a nonnegative `int`). -/
def renderNat (n : Nat) : List Char :=
  if n < 10 then [Char.ofNat (48 + n)]
  else renderNat (n / 10) ++ [Char.ofNat (48 + n % 10)]
termination_by n
decreasing_by exact Nat.div_lt_self (by omega) (by omega)

/-- Python's `str`/`repr` of an `int`: optional minus sign, then digits. -/
def renderInt (i : Int) : List Char :=
  if i < 0 then '-' :: renderNat i.natAbs else renderNat i.toNat

mutual

/-- `json.dumps(obj, separators=(",", ":"))` on the modeled JSON subset:
compact separators, insertion-ordered keys, ASCII escapes. -/
def renderJson : Json → List Char
  | .jstr s => renderString s
  | .jint i => renderInt i
  | .jobj fs => '\x7b' :: (renderFields fs ++ ['\x7d'])

/-- Comma-joined `key:value` items of an object body. -/
def renderFields : JFields → List Char
  | .nil => []
  | .cons k v .nil => renderString k ++ ':' :: renderJson v
  | .cons k v (.cons k2 v2 r) =>
      renderString k ++ ':' :: renderJson v ++ ',' :: renderFields (.cons k2 v2 r)

end

/-! ## Parser: `json.load` restricted to the same subset

The parser below models CPython's `json` scanner on the grammar fragment the
agent ever writes: string literals with the standard escapes (including
surrogate pairs), optionally signed decimal integers, and objects.  Inputs
outside the image of `renderJson` that CPython would treat differently
(floats, leading zeros, lone surrogates, whitespace) are irrelevant to the
claims and simply fail here. -/

/-- Is this an ASCII decimal digit? -/
def isDigitCh (c : Char) : Bool :=
  decide (48 ≤ c.toNat ∧ c.toNat ≤ 57)

/-- Numeric value of a decimal digit character. -/
def digitVal (c : Char) : Nat := c.toNat - 48

/-- Numeric value of a hex digit character (either case), if it is one. -/
def hexVal (c : Char) : Option Nat :=
  if 48 ≤ c.toNat ∧ c.toNat ≤ 57 then some (c.toNat - 48)
  else if 97 ≤ c.toNat ∧ c.toNat ≤ 102 then some (c.toNat - 87)
  else if 65 ≤ c.toNat ∧ c.toNat ≤ 70 then some (c.toNat - 55)
  else none

/-- Value of a `\uXXXX` escape's four hex digits. -/
def hex4Val (a b c d : Char) : Option Nat := do
  let va ← hexVal a
  let vb ← hexVal b
  let vc ← hexVal c
  let vd ← hexVal d
  pure (4096 * va + 256 * vb + 16 * vc + vd)

/-- Prepend a decoded character to a string-body parse result. -/
def consStr (c : Char) (r : Option (List Char × List Char)) :
    Option (List Char × List Char) :=
  r.map (fun p => (c :: p.1, p.2))

/-- After a high surrogate `\uXXXX`, parse the mandatory low-surrogate
escape and recombine the pair; `k` continues parsing the string body. -/
def parseLowSur (k : List Char → Option (List Char × List Char)) (hi : Nat) :
    List Char → Option (List Char × List Char)
  | b1 :: b2 :: a2 :: b3 :: c3 :: d2 :: rest3 =>
    if b1 = '\\' ∧ b2 = 'u' then
      match hex4Val a2 b3 c3 d2 with
      | none => none
      | some m =>
        if 56320 ≤ m ∧ m ≤ 57343 then
          consStr (Char.ofNat (65536 + (hi - 55296) * 1024 + (m - 56320))) (k rest3)
        else none
    else none
  | _ => none

/-- Parse a `\uXXXX` escape (possibly a surrogate pair); `k` continues
parsing the string body. -/
def parseUEsc (k : List Char → Option (List Char × List Char)) :
    List Char → Option (List Char × List Char)
  | a :: b :: c2 :: d :: rest2 =>
    match hex4Val a b c2 d with
    | none => none
    | some n =>
      if 55296 ≤ n ∧ n ≤ 56319 then parseLowSur k n rest2
      else if 56320 ≤ n ∧ n ≤ 57343 then none
      else consStr (Char.ofNat n) (k rest2)
  | _ => none

/-- Parse the body of a string literal after the opening quote, up to and
consuming the closing quote; returns the decoded characters and the rest of
the input.  Surrogate pairs are recombined as CPython's scanner does; a lone
surrogate (unrepresentable as a Lean `Char`, and never produced by
`renderJson`) fails.  The fuel argument only makes the recursion structural:
each step consumes at least one input character, so any fuel exceeding the
input length gives the scanner's behavior. -/
def parseStrBody : Nat → List Char → Option (List Char × List Char)
  | 0, _ => none
  | _ + 1, [] => none
  | fuel + 1, c :: rest =>
    if c = '"' then some ([], rest)
    else if c = '\\' then
      match rest with
      | [] => none
      | e :: rest1 =>
        if e = '"' then consStr '"' (parseStrBody fuel rest1)
        else if e = '\\' then consStr '\\' (parseStrBody fuel rest1)
        else if e = '/' then consStr '/' (parseStrBody fuel rest1)
        else if e = 'b' then consStr (Char.ofNat 8) (parseStrBody fuel rest1)
        else if e = 'f' then consStr (Char.ofNat 12) (parseStrBody fuel rest1)
        else if e = 'n' then consStr (Char.ofNat 10) (parseStrBody fuel rest1)
        else if e = 'r' then consStr (Char.ofNat 13) (parseStrBody fuel rest1)
        else if e = 't' then consStr (Char.ofNat 9) (parseStrBody fuel rest1)
        else if e = 'u' then parseUEsc (fun cs => parseStrBody fuel cs) rest1
        else none
    else consStr c (parseStrBody fuel rest)

/-- Parse a string literal body with always-sufficient fuel. -/
def parseStrTop (cs : List Char) : Option (List Char × List Char) :=
  parseStrBody (cs.length + 1) cs

/-- Maximal-munch decimal digit scan with accumulator. -/
def parseDigitsAux (acc : Nat) : List Char → Nat × List Char
  | [] => (acc, [])
  | c :: rest =>
    if isDigitCh c then parseDigitsAux (10 * acc + digitVal c) rest
    else (acc, c :: rest)

/-- Parse a nonempty run of decimal digits. -/
def parseNatCh : List Char → Option (Nat × List Char)
  | [] => none
  | c :: rest =>
    if isDigitCh c then some (parseDigitsAux (digitVal c) rest) else none

/-- Continue an object member after its value: a comma means more members
(parsed by `pf`), a closing brace ends the object. -/
def afterValue (pf : List Char → Option (JFields × List Char))
    (kcs : List Char) (v : Json) : List Char → Option (JFields × List Char)
  | ',' :: rest4 =>
      (pf rest4).map (fun p => (JFields.cons (String.mk kcs) v p.1, p.2))
  | '\x7d' :: rest4 =>
      some (JFields.cons (String.mk kcs) v JFields.nil, rest4)
  | _ => none

/-- Continue an object member after its key characters have been scanned:
expect a colon, a value, then a comma (more members) or the closing brace;
`pj` parses the value and `pf` parses the remaining members. -/
def parseAfterKey (pj : List Char → Option (Json × List Char))
    (pf : List Char → Option (JFields × List Char)) (kcs : List Char) :
    List Char → Option (JFields × List Char)
  | ':' :: rest2 =>
    match pj rest2 with
    | none => none
    | some (v, rest3) => afterValue pf kcs v rest3
  | _ => none

mutual

/-- Parse one JSON value (fuel-indexed to make the mutual recursion
structural; any fuel at least the node count of the value suffices). -/
def parseJson : Nat → List Char → Option (Json × List Char)
  | 0, _ => none
  | _ + 1, [] => none
  | fuel + 1, c :: rest =>
    if c = '"' then
      (parseStrTop rest).map (fun p => (Json.jstr (String.mk p.1), p.2))
    else if c = '\x7b' then
      match rest with
      | '\x7d' :: rest2 => some (Json.jobj JFields.nil, rest2)
      | _ => (parseFields fuel rest).map (fun p => (Json.jobj p.1, p.2))
    else if c = '-' then
      (parseNatCh rest).map (fun p => (Json.jint (-(p.1 : Int)), p.2))
    else if isDigitCh c then
      (parseNatCh (c :: rest)).map (fun p => (Json.jint (p.1 : Int), p.2))
    else none

/-- Parse the nonempty member list of an object, consuming the closing
brace (trailing commas are rejected, as in CPython). -/
def parseFields : Nat → List Char → Option (JFields × List Char)
  | 0, _ => none
  | fuel + 1, cs =>
    match cs with
    | '"' :: rest =>
      match parseStrTop rest with
      | none => none
      | some (kcs, rest1) =>
          parseAfterKey (parseJson fuel) (parseFields fuel) kcs rest1
    | _ => none

end

/-- `json.load`: parse a whole document, requiring all input consumed. -/
def parseDoc (cs : List Char) : Option Json :=
  match parseJson (cs.length + 1) cs with
  | some (j, []) => some j
  | _ => none

/-! ## Round trip: the parser inverts the serializer -/

theorem toNat_ofNat_valid {n : Nat} (h : n.isValidChar) : (Char.ofNat n).toNat = n := by
  simp [Char.ofNat, h, Char.ofNatAux, Char.toNat, UInt32.toNat]

theorem ofNat_toNat (c : Char) : Char.ofNat c.toNat = c := by
  have h : c.toNat.isValidChar := c.valid
  apply Char.ext
  simp [Char.ofNat, h, Char.ofNatAux]
  apply UInt32.ext
  simp [UInt32.toNat]
  rfl

/-- Unicode scalar values skip the surrogate range. -/
theorem charRange (c : Char) : c.toNat < 55296 ∨ (57343 < c.toNat ∧ c.toNat < 1114112) := by
  rcases c.valid with h | h
  · exact Or.inl (by exact_mod_cast h)
  · exact Or.inr ⟨by exact_mod_cast h.1, by exact_mod_cast h.2⟩

theorem hexVal_hexDigitChar : ∀ n < 16, hexVal (hexDigitChar n) = some n := by
  decide

theorem hex4Val_hex4 {n : Nat} (h : n < 65536) :
    hex4Val (hexDigitChar (n / 4096 % 16)) (hexDigitChar (n / 256 % 16))
      (hexDigitChar (n / 16 % 16)) (hexDigitChar (n % 16)) = some n := by
  rw [hex4Val, hexVal_hexDigitChar _ (by omega), hexVal_hexDigitChar _ (by omega),
      hexVal_hexDigitChar _ (by omega), hexVal_hexDigitChar _ (by omega)]
  show some _ = some n
  congr 1
  omega

theorem parseStrBody_quote (fuel : Nat) (rest : List Char) :
    parseStrBody (fuel + 1) ('"' :: rest) = some ([], rest) := rfl

theorem parseStrBody_esc_quote (fuel : Nat) (rest : List Char) :
    parseStrBody (fuel + 1) ('\\' :: '"' :: rest) =
      consStr '"' (parseStrBody fuel rest) := rfl

theorem parseStrBody_esc_bslash (fuel : Nat) (rest : List Char) :
    parseStrBody (fuel + 1) ('\\' :: '\\' :: rest) =
      consStr '\\' (parseStrBody fuel rest) := rfl

theorem parseStrBody_esc_b (fuel : Nat) (rest : List Char) :
    parseStrBody (fuel + 1) ('\\' :: 'b' :: rest) =
      consStr (Char.ofNat 8) (parseStrBody fuel rest) := rfl

theorem parseStrBody_esc_t (fuel : Nat) (rest : List Char) :
    parseStrBody (fuel + 1) ('\\' :: 't' :: rest) =
      consStr (Char.ofNat 9) (parseStrBody fuel rest) := rfl

theorem parseStrBody_esc_n (fuel : Nat) (rest : List Char) :
    parseStrBody (fuel + 1) ('\\' :: 'n' :: rest) =
      consStr (Char.ofNat 10) (parseStrBody fuel rest) := rfl

theorem parseStrBody_esc_f (fuel : Nat) (rest : List Char) :
    parseStrBody (fuel + 1) ('\\' :: 'f' :: rest) =
      consStr (Char.ofNat 12) (parseStrBody fuel rest) := rfl

theorem parseStrBody_esc_r (fuel : Nat) (rest : List Char) :
    parseStrBody (fuel + 1) ('\\' :: 'r' :: rest) =
      consStr (Char.ofNat 13) (parseStrBody fuel rest) := rfl

theorem parseStrBody_esc_u (fuel : Nat) (rest1 : List Char) :
    parseStrBody (fuel + 1) ('\\' :: 'u' :: rest1) =
      parseUEsc (fun cs => parseStrBody fuel cs) rest1 := rfl

theorem parseStrBody_lit (fuel : Nat) (c : Char) (rest : List Char)
    (h1 : c ≠ '"') (h2 : c ≠ '\\') :
    parseStrBody (fuel + 1) (c :: rest) = consStr c (parseStrBody fuel rest) := by
  show (if c = '"' then some ([], rest)
    else if c = '\\' then _ else consStr c (parseStrBody fuel rest)) = _
  rw [if_neg h1, if_neg h2]

theorem parseUEsc_eq (k : List Char → Option (List Char × List Char))
    (a b c2 d : Char) (n : Nat) (rest2 : List Char)
    (hx : hex4Val a b c2 d = some n) :
    parseUEsc k (a :: b :: c2 :: d :: rest2) =
      if 55296 ≤ n ∧ n ≤ 56319 then parseLowSur k n rest2
      else if 56320 ≤ n ∧ n ≤ 57343 then none
      else consStr (Char.ofNat n) (k rest2) := by
  rw [parseUEsc, hx]

theorem parseLowSur_eq (k : List Char → Option (List Char × List Char))
    (hi m : Nat) (a2 b3 c3 d2 : Char) (rest3 : List Char)
    (hx : hex4Val a2 b3 c3 d2 = some m) :
    parseLowSur k hi ('\\' :: 'u' :: a2 :: b3 :: c3 :: d2 :: rest3) =
      if 56320 ≤ m ∧ m ≤ 57343 then
        consStr (Char.ofNat (65536 + (hi - 55296) * 1024 + (m - 56320))) (k rest3)
      else none := by
  rw [parseLowSur, if_pos (by exact ⟨rfl, rfl⟩), hx]

/-- Decoding one escaped character: `parseStrBody` undoes `escChar`. -/
theorem parseStrBody_escChar (fuel : Nat) (c : Char) (rest : List Char) :
    parseStrBody (fuel + 1) (escChar c ++ rest) = consStr c (parseStrBody fuel rest) := by
  by_cases h1 : c = '"'
  · subst h1
    rw [show escChar '"' = ['\\', '"'] from by decide]
    exact parseStrBody_esc_quote fuel rest
  by_cases h2 : c = '\\'
  · subst h2
    rw [show escChar '\\' = ['\\', '\\'] from by decide]
    exact parseStrBody_esc_bslash fuel rest
  by_cases h3 : c = Char.ofNat 8
  · subst h3
    rw [show escChar (Char.ofNat 8) = ['\\', 'b'] from by decide]
    exact parseStrBody_esc_b fuel rest
  by_cases h4 : c = Char.ofNat 9
  · subst h4
    rw [show escChar (Char.ofNat 9) = ['\\', 't'] from by decide]
    exact parseStrBody_esc_t fuel rest
  by_cases h5 : c = Char.ofNat 10
  · subst h5
    rw [show escChar (Char.ofNat 10) = ['\\', 'n'] from by decide]
    exact parseStrBody_esc_n fuel rest
  by_cases h6 : c = Char.ofNat 12
  · subst h6
    rw [show escChar (Char.ofNat 12) = ['\\', 'f'] from by decide]
    exact parseStrBody_esc_f fuel rest
  by_cases h7 : c = Char.ofNat 13
  · subst h7
    rw [show escChar (Char.ofNat 13) = ['\\', 'r'] from by decide]
    exact parseStrBody_esc_r fuel rest
  by_cases h8 : 32 ≤ c.toNat ∧ c.toNat ≤ 126
  · rw [escChar, if_neg h1, if_neg h2, if_neg h3, if_neg h4, if_neg h5, if_neg h6,
      if_neg h7, if_pos h8]
    exact parseStrBody_lit fuel c rest h1 h2
  by_cases h9 : c.toNat < 65536
  · rw [escChar, if_neg h1, if_neg h2, if_neg h3, if_neg h4, if_neg h5, if_neg h6,
      if_neg h7, if_neg h8, if_pos h9]
    show parseStrBody (fuel + 1) ('\\' :: 'u' :: hexDigitChar (c.toNat / 4096 % 16)
      :: hexDigitChar (c.toNat / 256 % 16) :: hexDigitChar (c.toNat / 16 % 16)
      :: hexDigitChar (c.toNat % 16) :: rest) = _
    rw [parseStrBody_esc_u, parseUEsc_eq _ _ _ _ _ _ _ (hex4Val_hex4 h9)]
    rcases charRange c with hr | hr
    · rw [if_neg (by omega), if_neg (by omega), ofNat_toNat]
    · rw [if_neg (by omega), if_neg (by omega), ofNat_toNat]
  · rw [escChar, if_neg h1, if_neg h2, if_neg h3, if_neg h4, if_neg h5, if_neg h6,
      if_neg h7, if_neg h8, if_neg h9]
    have hv : 57343 < c.toNat ∧ c.toNat < 1114112 := by
      rcases charRange c with hr | hr
      · omega
      · exact hr
    show parseStrBody (fuel + 1) ('\\' :: 'u'
      :: hexDigitChar ((55296 + (c.toNat - 65536) / 1024) / 4096 % 16)
      :: hexDigitChar ((55296 + (c.toNat - 65536) / 1024) / 256 % 16)
      :: hexDigitChar ((55296 + (c.toNat - 65536) / 1024) / 16 % 16)
      :: hexDigitChar ((55296 + (c.toNat - 65536) / 1024) % 16)
      :: '\\' :: 'u'
      :: hexDigitChar ((56320 + (c.toNat - 65536) % 1024) / 4096 % 16)
      :: hexDigitChar ((56320 + (c.toNat - 65536) % 1024) / 256 % 16)
      :: hexDigitChar ((56320 + (c.toNat - 65536) % 1024) / 16 % 16)
      :: hexDigitChar ((56320 + (c.toNat - 65536) % 1024) % 16)
      :: rest) = _
    rw [parseStrBody_esc_u,
      parseUEsc_eq _ _ _ _ _ _ _
        (hex4Val_hex4 (show 55296 + (c.toNat - 65536) / 1024 < 65536 by omega))]
    rw [if_pos (by omega)]
    rw [parseLowSur_eq _ _ _ _ _ _ _ _
      (hex4Val_hex4 (show 56320 + (c.toNat - 65536) % 1024 < 65536 by omega))]
    rw [if_pos (by omega)]
    have harg : 65536 + (55296 + (c.toNat - 65536) / 1024 - 55296) * 1024
        + (56320 + (c.toNat - 65536) % 1024 - 56320) = c.toNat := by omega
    rw [harg, ofNat_toNat]

/-- Decoding a whole escaped string body, up to the closing quote. -/
theorem parseStrBody_escList (l : List Char) (rest : List Char) :
    ∀ fuel, l.length ≤ fuel →
      parseStrBody (fuel + 1) (escList l ++ '"' :: rest) = some (l, rest) := by
  induction l with
  | nil => intro fuel _; exact parseStrBody_quote fuel rest
  | cons c cs ih =>
      intro fuel hlen
      match fuel, hlen with
      | f + 1, hlen =>
        rw [escList, List.append_assoc, parseStrBody_escChar,
          ih f (by simp only [List.length_cons] at hlen; omega)]
        rfl

/-- Each character escapes to at least one character. -/
theorem escChar_length_pos (c : Char) : 1 ≤ (escChar c).length := by
  rw [escChar]
  split
  · simp
  split
  · simp
  split
  · simp
  split
  · simp
  split
  · simp
  split
  · simp
  split
  · simp
  split
  · simp
  split
  · simp [uEsc, hex4]
  · simp [uEsc, hex4]

/-- Escaping does not shorten a string. -/
theorem length_le_escList (l : List Char) : l.length ≤ (escList l).length := by
  induction l with
  | nil => simp [escList]
  | cons c cs ih =>
      rw [escList, List.length_append]
      have := escChar_length_pos c
      simp only [List.length_cons]
      omega

/-- `parseStrTop` (string scan with always-sufficient fuel) undoes
`escList`. -/
theorem parseStrTop_escList (l : List Char) (rest : List Char) :
    parseStrTop (escList l ++ '"' :: rest) = some (l, rest) := by
  rw [parseStrTop]
  apply parseStrBody_escList
  calc l.length ≤ (escList l).length := length_le_escList l
  _ ≤ (escList l ++ '"' :: rest).length := by simp

theorem mk_toList (s : String) : String.mk s.toList = s := rfl

/-! ### Numbers -/

theorem toNat_ofNat_small {n : Nat} (h : n < 55296) : (Char.ofNat n).toNat = n :=
  toNat_ofNat_valid (Or.inl h)

/-- All characters of a rendered natural number are decimal digits. -/
theorem renderNat_digits (n : Nat) : ∀ c ∈ renderNat n, isDigitCh c = true := by
  induction n using Nat.strong_induction_on with
  | _ n ih =>
    by_cases h : n < 10
    · rw [renderNat, if_pos h]
      intro c hc
      simp only [List.mem_singleton] at hc
      subst hc
      simp only [isDigitCh, toNat_ofNat_small (show 48 + n < 55296 by omega)]
      exact decide_eq_true (by omega)
    · rw [renderNat, if_neg h]
      intro c hc
      rcases List.mem_append.mp hc with hc | hc
      · exact ih (n / 10) (Nat.div_lt_self (by omega) (by omega)) c hc
      · simp only [List.mem_singleton] at hc
        subst hc
        simp only [isDigitCh, toNat_ofNat_small (show 48 + n % 10 < 55296 by omega)]
        exact decide_eq_true (by omega)

theorem renderNat_ne_nil (n : Nat) : renderNat n ≠ [] := by
  rw [renderNat]
  split <;> simp

/-- The input head is not a decimal digit (or the input is empty): under
this condition a maximal-munch digit scan stops exactly there. -/
def noDigitHead : List Char → Prop
  | [] => True
  | c :: _ => isDigitCh c = false

/-- Accumulator digit fold. -/
def digitsVal (acc : Nat) (ds : List Char) : Nat :=
  ds.foldl (fun a c => 10 * a + digitVal c) acc

theorem parseDigitsAux_spec (ds : List Char) :
    ∀ acc (rest : List Char), (∀ c ∈ ds, isDigitCh c = true) → noDigitHead rest →
      parseDigitsAux acc (ds ++ rest) = (digitsVal acc ds, rest) := by
  induction ds with
  | nil =>
      intro acc rest _ hrest
      match rest with
      | [] => rfl
      | c :: r =>
          show (if isDigitCh c then _ else (acc, c :: r)) = _
          rw [if_neg (by simp [noDigitHead] at hrest; simp [hrest])]
          rfl
  | cons d ds ih =>
      intro acc rest hds hrest
      show (if isDigitCh d then parseDigitsAux (10 * acc + digitVal d) (ds ++ rest)
        else _) = _
      rw [if_pos (hds d (by simp)), ih _ rest (fun c hc => hds c (by simp [hc])) hrest]
      rfl

theorem digitsVal_renderNat (n : Nat) :
    ∀ acc, digitsVal acc (renderNat n) = acc * 10 ^ (renderNat n).length + n := by
  induction n using Nat.strong_induction_on with
  | _ n ih =>
    intro acc
    by_cases h : n < 10
    · rw [renderNat, if_pos h]
      show 10 * acc + digitVal (Char.ofNat (48 + n)) = acc * 10 ^ 1 + n
      rw [digitVal, toNat_ofNat_small (by omega)]
      ring_nf
      omega
    · rw [renderNat, if_neg h]
      rw [digitsVal, List.foldl_append]
      have hrec := ih (n / 10) (Nat.div_lt_self (by omega) (by omega)) acc
      rw [digitsVal] at hrec
      rw [hrec]
      show 10 * (acc * 10 ^ (renderNat (n / 10)).length + n / 10)
        + digitVal (Char.ofNat (48 + n % 10)) = _
      rw [digitVal, toNat_ofNat_small (by omega), List.length_append,
        List.length_singleton, pow_succ, ← mul_assoc]
      generalize acc * 10 ^ (renderNat (n / 10)).length = A
      omega

/-- Scanning a rendered natural followed by a non-digit recovers it. -/
theorem parseNatCh_renderNat (n : Nat) (rest : List Char) (hrest : noDigitHead rest) :
    parseNatCh (renderNat n ++ rest) = some (n, rest) := by
  rcases hdn : renderNat n with _ | ⟨d, ds⟩
  · exact absurd hdn (renderNat_ne_nil n)
  have hd : isDigitCh d = true := renderNat_digits n d (by rw [hdn]; simp)
  show (if isDigitCh d then some (parseDigitsAux (digitVal d) (ds ++ rest)) else none) = _
  rw [if_pos hd,
    parseDigitsAux_spec ds (digitVal d) rest
      (fun c hc => renderNat_digits n c (by rw [hdn]; simp [hc])) hrest]
  have hv : digitsVal 0 (renderNat n) = n := by
    have := digitsVal_renderNat n 0
    omega
  rw [hdn] at hv
  have : digitsVal 0 (d :: ds) = digitsVal (digitVal d) ds := by
    simp [digitsVal]
  rw [this] at hv
  rw [hv]

theorem digit_ne_quote {d : Char} (h : isDigitCh d = true) : d ≠ '"' := by
  intro he; subst he; simp [isDigitCh] at h

theorem digit_ne_brace {d : Char} (h : isDigitCh d = true) : d ≠ '\x7b' := by
  intro he; subst he; simp [isDigitCh] at h

theorem digit_ne_minus {d : Char} (h : isDigitCh d = true) : d ≠ '-' := by
  intro he; subst he; simp [isDigitCh] at h

/-! ### Values and objects -/

mutual

/-- Node count of a JSON value (a fuel bound for the parser). -/
def sizeJ : Json → Nat
  | .jstr _ => 1
  | .jint _ => 1
  | .jobj fs => 1 + sizeF fs

/-- Node count of an object's fields. -/
def sizeF : JFields → Nat
  | .nil => 0
  | .cons _ v r => 1 + sizeJ v + sizeF r

end

theorem parseJson_quote (fuel : Nat) (rest : List Char) :
    parseJson (fuel + 1) ('"' :: rest) =
      (parseStrTop rest).map (fun p => (Json.jstr (String.mk p.1), p.2)) := rfl

theorem parseJson_emptyObj (fuel : Nat) (rest : List Char) :
    parseJson (fuel + 1) ('\x7b' :: '\x7d' :: rest) =
      some (Json.jobj JFields.nil, rest) := rfl

theorem parseJson_objKey (fuel : Nat) (rest : List Char) :
    parseJson (fuel + 1) ('\x7b' :: '"' :: rest) =
      (parseFields fuel ('"' :: rest)).map (fun p => (Json.jobj p.1, p.2)) := rfl

theorem parseJson_minus (fuel : Nat) (rest : List Char) :
    parseJson (fuel + 1) ('-' :: rest) =
      (parseNatCh rest).map (fun p => (Json.jint (-(p.1 : Int)), p.2)) := rfl

theorem parseJson_digit (fuel : Nat) (d : Char) (rest : List Char)
    (hd : isDigitCh d = true) :
    parseJson (fuel + 1) (d :: rest) =
      (parseNatCh (d :: rest)).map (fun p => (Json.jint (p.1 : Int), p.2)) := by
  show (if d = '"' then _
    else if d = '\x7b' then _
    else if d = '-' then _
    else if isDigitCh d then
      (parseNatCh (d :: rest)).map (fun p => (Json.jint (p.1 : Int), p.2))
    else none) = _
  rw [if_neg (digit_ne_quote hd), if_neg (digit_ne_brace hd),
    if_neg (digit_ne_minus hd), if_pos hd]

theorem parseFields_key (fuel : Nat) (kl rest1 : List Char) :
    parseFields (fuel + 1) ('"' :: (escList kl ++ '"' :: rest1)) =
      parseAfterKey (parseJson fuel) (parseFields fuel) kl rest1 := by
  show (match parseStrTop (escList kl ++ '"' :: rest1) with
    | none => none
    | some (kcs, rest2) =>
        parseAfterKey (parseJson fuel) (parseFields fuel) kcs rest2) = _
  rw [parseStrTop_escList]

theorem parseAfterKey_colon (pj : List Char → Option (Json × List Char))
    (pf : List Char → Option (JFields × List Char)) (kcs : List Char)
    (v : Json) (restv rest3 : List Char) (hv : pj restv = some (v, rest3)) :
    parseAfterKey pj pf kcs (':' :: restv) = afterValue pf kcs v rest3 := by
  rw [parseAfterKey]
  simp only [hv]

theorem afterValue_comma (pf : List Char → Option (JFields × List Char))
    (kcs : List Char) (v : Json) (rest4 : List Char) :
    afterValue pf kcs v (',' :: rest4) =
      (pf rest4).map (fun p => (JFields.cons (String.mk kcs) v p.1, p.2)) := by
  rw [afterValue]

theorem afterValue_brace (pf : List Char → Option (JFields × List Char))
    (kcs : List Char) (v : Json) (rest4 : List Char) :
    afterValue pf kcs v ('\x7d' :: rest4) =
      some (JFields.cons (String.mk kcs) v JFields.nil, rest4) := by
  rw [afterValue]

theorem noDigitHead_brace (rest : List Char) : noDigitHead ('\x7d' :: rest) := by
  show isDigitCh '\x7d' = false
  decide

theorem noDigitHead_comma (rest : List Char) : noDigitHead (',' :: rest) := by
  show isDigitCh ',' = false
  decide

theorem renderJson_jstr (s : String) :
    renderJson (Json.jstr s) = '"' :: (escList s.toList ++ ['"']) := by
  rw [renderJson, renderString]

theorem renderJson_jint (i : Int) : renderJson (Json.jint i) = renderInt i := by
  rw [renderJson]

theorem renderJson_jobj (fs : JFields) :
    renderJson (Json.jobj fs) = '\x7b' :: (renderFields fs ++ ['\x7d']) := by
  rw [renderJson]

theorem renderFields_one (k : String) (v : Json) :
    renderFields (JFields.cons k v JFields.nil) =
      renderString k ++ ':' :: renderJson v := by
  rw [renderFields]

theorem renderFields_more (k : String) (v : Json) (k2 : String) (v2 : Json)
    (r : JFields) :
    renderFields (JFields.cons k v (JFields.cons k2 v2 r)) =
      renderString k ++ ':' :: renderJson v
        ++ ',' :: renderFields (JFields.cons k2 v2 r) := by
  rw [renderFields]

theorem sizeJ_jstr (s : String) : sizeJ (Json.jstr s) = 1 := by rw [sizeJ]

theorem sizeJ_jint (i : Int) : sizeJ (Json.jint i) = 1 := by rw [sizeJ]

theorem sizeJ_jobj (fs : JFields) : sizeJ (Json.jobj fs) = 1 + sizeF fs := by
  rw [sizeJ]

theorem sizeF_cons (k : String) (v : Json) (r : JFields) :
    sizeF (JFields.cons k v r) = 1 + sizeJ v + sizeF r := by
  rw [sizeF]

mutual

/-- The parser inverts the serializer on values, given enough fuel and a
continuation that cannot extend a trailing number. -/
theorem parseJson_render (j : Json) (fuel : Nat) (rest : List Char)
    (hfuel : sizeJ j ≤ fuel) (hrest : noDigitHead rest) :
    parseJson fuel (renderJson j ++ rest) = some (j, rest) := by
  obtain ⟨f, rfl⟩ : ∃ f, fuel = f + 1 := by
    refine ⟨fuel - 1, ?_⟩
    cases j with
    | jstr s => rw [sizeJ_jstr] at hfuel; omega
    | jint i => rw [sizeJ_jint] at hfuel; omega
    | jobj fs => rw [sizeJ_jobj] at hfuel; omega
  cases j with
  | jstr s =>
      rw [renderJson_jstr, List.cons_append, List.append_assoc,
        List.singleton_append, parseJson_quote, parseStrTop_escList]
      rfl
  | jint i =>
      rw [renderJson_jint]
      by_cases hi : i < 0
      · rw [renderInt, if_pos hi, List.cons_append, parseJson_minus,
          parseNatCh_renderNat _ _ hrest]
        have habs : -(i.natAbs : Int) = i := by omega
        show some (Json.jint (-(i.natAbs : Int)), rest) = _
        rw [habs]
      · rw [renderInt, if_neg hi]
        have htn : ((i.toNat : Nat) : Int) = i := by omega
        have hp : parseNatCh (renderNat i.toNat ++ rest) = some (i.toNat, rest) :=
          parseNatCh_renderNat _ _ hrest
        rcases hdn : renderNat i.toNat with _ | ⟨d, ds⟩
        · exact absurd hdn (renderNat_ne_nil _)
        have hd : isDigitCh d = true := renderNat_digits _ d (by rw [hdn]; simp)
        rw [hdn] at hp
        simp only [List.cons_append] at hp ⊢
        rw [parseJson_digit f d _ hd, hp]
        show some (Json.jint ((i.toNat : Nat) : Int), rest) = _
        rw [htn]
  | jobj fs =>
      rw [renderJson_jobj]
      cases fs with
      | nil =>
          show parseJson (f + 1) (('\x7b' :: (renderFields JFields.nil ++ ['\x7d']))
            ++ rest) = _
          rw [show renderFields JFields.nil = [] from by rw [renderFields]]
          exact parseJson_emptyObj f rest
      | cons k v r =>
          have hsz : sizeF (JFields.cons k v r) ≤ f := by
            rw [sizeJ_jobj] at hfuel
            omega
          have hY : ∃ Y, renderFields (JFields.cons k v r) = '"' :: Y := by
            cases r with
            | nil =>
                rw [renderFields_one, renderString, List.cons_append]
                exact ⟨_, rfl⟩
            | cons k2 v2 r2 =>
                rw [renderFields_more, renderString, List.cons_append,
                  List.cons_append]
                exact ⟨_, rfl⟩
          obtain ⟨Y, hY⟩ := hY
          rw [List.cons_append, hY]
          show parseJson (f + 1) ('\x7b' :: '"' :: ((Y ++ ['\x7d']) ++ rest)) = _
          rw [parseJson_objKey]
          have hback : ('"' : Char) :: ((Y ++ ['\x7d']) ++ rest)
              = renderFields (JFields.cons k v r) ++ '\x7d' :: rest := by
            rw [hY]
            simp [List.append_assoc]
          rw [hback,
            parseFields_render (JFields.cons k v r) f rest hsz (by simp)]
          rfl
termination_by fuel
decreasing_by all_goals omega

/-- The parser inverts the serializer on nonempty member lists followed by
the closing brace. -/
theorem parseFields_render (fs : JFields) (fuel : Nat) (rest : List Char)
    (hfuel : sizeF fs ≤ fuel) (hne : fs ≠ JFields.nil) :
    parseFields fuel (renderFields fs ++ '\x7d' :: rest) = some (fs, rest) := by
  cases fs with
  | nil => exact absurd rfl hne
  | cons k v r =>
      rw [sizeF_cons] at hfuel
      obtain ⟨f, rfl⟩ : ∃ f, fuel = f + 1 := ⟨fuel - 1, by omega⟩
      have hszv : sizeJ v ≤ f := by omega
      cases r with
      | nil =>
          rw [renderFields_one, renderString]
          simp only [List.cons_append, List.append_assoc, List.singleton_append,
            List.nil_append]
          rw [parseFields_key,
            parseAfterKey_colon _ _ _ v _ ('\x7d' :: rest)
              (parseJson_render v f ('\x7d' :: rest) hszv (noDigitHead_brace rest)),
            afterValue_brace, mk_toList]
      | cons k2 v2 r2 =>
          have hszr : sizeF (JFields.cons k2 v2 r2) ≤ f := by omega
          rw [renderFields_more, renderString]
          simp only [List.cons_append, List.append_assoc, List.singleton_append,
            List.nil_append]
          rw [parseFields_key,
            parseAfterKey_colon _ _ _ v _
              (',' :: (renderFields (JFields.cons k2 v2 r2) ++ '\x7d' :: rest))
              (parseJson_render v f _ hszv (noDigitHead_comma _)),
            afterValue_comma,
            parseFields_render (JFields.cons k2 v2 r2) f rest hszr (by simp),
            mk_toList]
          rfl
termination_by fuel
decreasing_by all_goals omega

end

theorem sizeF_nil : sizeF JFields.nil = 0 := by rw [sizeF]

theorem one_le_renderInt_length (i : Int) : 1 ≤ (renderInt i).length := by
  rw [renderInt]
  split
  · simp
  · exact List.length_pos.mpr (renderNat_ne_nil _)

mutual

/-- A value's node count never exceeds its rendered length (so input length
is always sufficient parser fuel). -/
theorem sizeJ_le_length (j : Json) : sizeJ j ≤ (renderJson j).length := by
  cases j with
  | jstr s =>
      rw [sizeJ_jstr, renderJson_jstr]
      simp
  | jint i =>
      rw [sizeJ_jint, renderJson_jint]
      exact one_le_renderInt_length i
  | jobj fs =>
      rw [sizeJ_jobj, renderJson_jobj]
      have h := sizeF_le_length fs
      simp only [List.length_cons, List.length_append, List.length_singleton]
      omega

/-- Fields' node count against rendered length. -/
theorem sizeF_le_length (fs : JFields) : sizeF fs ≤ (renderFields fs).length + 1 := by
  cases fs with
  | nil =>
      rw [sizeF_nil]
      omega
  | cons k v r =>
      rw [sizeF_cons]
      cases r with
      | nil =>
          rw [renderFields_one]
          have hv := sizeJ_le_length v
          rw [sizeF_nil]
          simp only [List.length_append, List.length_cons]
          omega
      | cons k2 v2 r2 =>
          rw [renderFields_more]
          have hv := sizeJ_le_length v
          have hr := sizeF_le_length (JFields.cons k2 v2 r2)
          simp only [List.length_append, List.length_cons]
          omega

end

/-- `json.load ∘ json.dump` is the identity on the modeled JSON values. -/
theorem parseDoc_renderJson (j : Json) : parseDoc (renderJson j) = some j := by
  rw [parseDoc]
  have h := parseJson_render j ((renderJson j).length + 1) []
    (by have := sizeJ_le_length j; omega) trivial
  rw [List.append_nil] at h
  rw [h]

/-! ## Event payloads (`payload`, lines 62-65, and its call sites)

`payload(event, **kw)` builds `{"server_id": ..., "event": ..., "ts": ...}`
and then inserts the keyword fields, preserving insertion order (none of the
call sites reuses one of the first three keys). -/

/-- `payload` (lines 62-65); `ts` stands for `now_ts() = int(time.time())`. -/
def payload (serverId : String) (event : String) (ts : Int) (kw : JFields) : Json :=
  Json.jobj (JFields.cons "server_id" (Json.jstr serverId)
    (JFields.cons "event" (Json.jstr event)
      (JFields.cons "ts" (Json.jint ts) kw)))

/-- `payload("server_started")` — line 240. -/
def startedPayload (serverId : String) (ts : Int) : Json :=
  payload serverId "server_started" ts JFields.nil

/-- `payload("server_stopped")` — line 221, sent by the signal handler. -/
def stoppedPayload (serverId : String) (ts : Int) : Json :=
  payload serverId "server_stopped" ts JFields.nil

/-- `payload("player_joined", player=name, players_online=...)` — line 193. -/
def joinedPayload (serverId : String) (ts : Int) (player : String)
    (playersOnline : Int) : Json :=
  payload serverId "player_joined" ts
    (JFields.cons "player" (Json.jstr player)
      (JFields.cons "players_online" (Json.jint playersOnline) JFields.nil))

/-- `payload("player_left", player=name, players_online=...)` — line 199. -/
def leftPayload (serverId : String) (ts : Int) (player : String)
    (playersOnline : Int) : Json :=
  payload serverId "player_left" ts
    (JFields.cons "player" (Json.jstr player)
      (JFields.cons "players_online" (Json.jint playersOnline) JFields.nil))

/-- `metrics_snapshot()` (lines 45-60); the two percentages and the load
average are floats in Python, modeled here as integers (Python's float
repr/parse round trip is a stdlib guarantee outside this embedding). -/
structure MetricsSnapshot where
  cpuPct : Int
  memPct : Int
  load1 : Int
  hostname : String
  agentTime : String

/-- The dict literal returned by `metrics_snapshot` (lines 54-60). -/
def snapshotJson (m : MetricsSnapshot) : Json :=
  Json.jobj (JFields.cons "cpu_pct" (Json.jint m.cpuPct)
    (JFields.cons "mem_pct" (Json.jint m.memPct)
      (JFields.cons "load1" (Json.jint m.load1)
        (JFields.cons "hostname" (Json.jstr m.hostname)
          (JFields.cons "agent_time" (Json.jstr m.agentTime) JFields.nil)))))

/-- `payload("metrics", metrics=..., players_online=...)` — lines 213-215. -/
def metricsPayload (serverId : String) (ts : Int) (m : MetricsSnapshot)
    (playersOnline : Int) : Json :=
  payload serverId "metrics" ts
    (JFields.cons "metrics" (snapshotJson m)
      (JFields.cons "players_online" (Json.jint playersOnline) JFields.nil))

/-- The agent's event records: one constructor per emission site in
`src/agent.py`. -/
inductive Event where
  | started (serverId : String) (ts : Int)
  | stopped (serverId : String) (ts : Int)
  | joined (serverId : String) (ts : Int) (player : String) (playersOnline : Int)
  | left (serverId : String) (ts : Int) (player : String) (playersOnline : Int)
  | metrics (serverId : String) (ts : Int) (snap : MetricsSnapshot)
      (playersOnline : Int)

/-- The JSON object the agent builds for each event. -/
def encodeEvent : Event → Json
  | .started sid ts => startedPayload sid ts
  | .stopped sid ts => stoppedPayload sid ts
  | .joined sid ts player online => joinedPayload sid ts player online
  | .left sid ts player online => leftPayload sid ts player online
  | .metrics sid ts snap online => metricsPayload sid ts snap online

/-- Field lookup in an object (Python dict access). -/
def lookupField : JFields → String → Option Json
  | JFields.nil, _ => none
  | JFields.cons k v r, key => if k = key then some v else lookupField r key

/-- The event kind: the payload's "event" value. -/
def eventKind (j : Json) : Option String :=
  match j with
  | Json.jobj fs =>
    match lookupField fs "event" with
    | some (Json.jstr s) => some s
    | _ => none
  | _ => none

/-! ## Durable queue (lines 67-104)

The queue directory is a finite set of files, one per entry, modeled as a
list of (sequence key, file characters) pairs.  File names are
`{seq:020d}.json`; the fixed-width zero padding makes lexicographic
file-name order (what `queue_list` sorts by) coincide with numeric order of
the keys, so keys are modeled as the numbers themselves. -/

/-- The queue directory's contents. -/
abbrev Queue := List (Nat × List Char)

/-- `queue_list` (lines 71-75): entries sorted by file name = key. -/
def queue_list (q : Queue) : Queue :=
  q.mergeSort (fun a b => a.1 ≤ b.1)

/-- `queue_push` (lines 77-85).  The sequence key is the wall-clock
millisecond count `seq = int(time.time() * 1000)` — despite the comment
"Use monotonic timestamp+counter to avoid collisions" no counter is
involved; `timeMs` is that value.  The entry is `json.dump`ed to a `.tmp`
staging file and `os.replace`d into place, which overwrites any entry
already stored under the same key. -/
def queue_push (timeMs : Nat) (obj : Json) (q : Queue) : Queue :=
  (timeMs, renderJson obj) :: q.filter (fun e => e.1 != timeMs)

/-- Read one entry (lines 91-100): `json.load` the file; on a parse
failure delete it (`os.remove`) and report the empty result. -/
def popEntry (q : Queue) : Nat × List Char → Option (Nat × Json) × Queue
  | (k, s) =>
    match parseDoc s with
    | some obj => (some (k, obj), q)
    | none => (none, q.filter (fun e => e.1 != k))

/-- `queue_pop_one` (lines 87-100): read (without deleting) the oldest
entry; an entry whose JSON cannot be parsed is deleted and the same empty
result as for an empty queue is returned. -/
def queue_pop_one (q : Queue) : Option (Nat × Json) × Queue :=
  match queue_list q with
  | [] => (none, q)
  | entry :: _ => popEntry q entry

/-- `queue_delete` (lines 102-104): remove by key; idempotent. -/
def queue_delete (k : Nat) (q : Queue) : Queue :=
  q.filter (fun e => e.1 != k)

/-! ## Network send (lines 35-43 and 107-129) -/

/-- The request metadata `sign_body` returns (lines 39-43). -/
structure Headers where
  xSignature : String
  xTimestamp : String
  contentType : String

/-- The environment-derived configuration the send path reads. -/
structure AgentConfig where
  serverId : String
  agentKey : String
  ingestUrl : String
  dryRun : Bool

/-- `sign_body` (lines 35-43).  `hmacHex key msg` abstracts the external
library call `hmac.new(key.encode(), msg, hashlib.sha256).hexdigest()`; the
body bytes are the rendered ASCII characters.  An empty `AGENT_KEY` raises
`RuntimeError` — modeled as `Except.error`. -/
def sign_body (hmacHex : String → List Char → String) (agentKey : String)
    (body : List Char) (ts : String) : Except String Headers :=
  if agentKey = "" then Except.error "AGENT_KEY not set"
  else Except.ok
    { xSignature := "sha256=" ++ hmacHex agentKey (body ++ ts.toList)
      xTimestamp := ts
      contentType := "application/json" }

/-- The POST request `http_send` issues (line 117). -/
structure HttpRequest where
  url : String
  body : List Char
  headers : Headers

/-- The success test on the network outcome (lines 117-124):
`r.status_code // 100 == 2`; a network exception (`none`) is failure. -/
def http_success (net : Option Nat) : Bool :=
  match net with
  | some code => code / 100 == 2
  | none => false

/-- `http_send` (lines 107-124).  `DRY_RUN` short-circuits to success;
missing `INGEST_URL` returns failure; otherwise the body is serialized once
and signed.  `sign_body` is called OUTSIDE the try block (line 115), so its
`RuntimeError` escapes `http_send`.  `net` is the network oracle: `some
code` for a response with that status, `none` for a request exception. -/
def http_send (cfg : AgentConfig) (hmacHex : String → List Char → String)
    (tsNow : Nat) (net : Option Nat) (obj : Json) :
    Except String (Bool × Option HttpRequest) :=
  if cfg.dryRun then Except.ok (true, none)
  else if cfg.ingestUrl = "" then Except.ok (false, none)
  else
    match sign_body hmacHex cfg.agentKey (renderJson obj) (toString tsNow) with
    | Except.error e => Except.error e
    | Except.ok hdrs =>
        Except.ok (http_success net,
          some { url := cfg.ingestUrl, body := renderJson obj, headers := hdrs })

/-- `send_or_queue` (lines 126-129): on a `False` result the event is pushed
to the durable queue; an exception from `http_send` propagates (it is not
caught anywhere on the emission paths) and nothing is queued. -/
def send_or_queue (cfg : AgentConfig) (hmacHex : String → List Char → String)
    (tsNow : Nat) (net : Option Nat) (timeMs : Nat) (obj : Json) (q : Queue) :
    Except String Queue :=
  match http_send cfg hmacHex tsNow net obj with
  | Except.error e => Except.error e
  | Except.ok (true, _) => Except.ok q
  | Except.ok (false, _) => Except.ok (queue_push timeMs obj q)

/-! ## Drain loop (lines 131-145) -/

/-- `delay = 2` before the first iteration (line 133). -/
def drainInitialDelay : Nat := 2

/-- One iteration of `queue_drain_loop`'s body (lines 134-145), with the
boolean result of `http_send` for the popped object supplied by `send`:
returns the next delay and the queue state after the iteration. -/
def queue_drain_step (send : Json → Bool) (delay : Nat) (q : Queue) :
    Nat × Queue :=
  match queue_pop_one q with
  | (none, q1) => (min 30 (delay * 2), q1)
  | (some (k, obj), q1) =>
    if send obj then (1, queue_delete k q1)
    else (min 10 (delay * 2), q1)

/-! ## Log-tailing presence detection (lines 16-21 and 186-200) -/

/-- Does `needle` occur at the head of `hay`? -/
def startsWith : List Char → List Char → Bool
  | [], _ => true
  | _ :: _, [] => false
  | a :: as, b :: bs => a = b && startsWith as bs

/-- Does `needle` occur anywhere in `hay`? -/
def containsSub (needle : List Char) : List Char → Bool
  | [] => needle.isEmpty
  | c :: t => startsWith needle (c :: t) || containsSub needle t

/-- One line of `detect_player_events` (lines 186-200), counter part only:
`JOIN_RX.search(line) or JOIN_ALT.search(line)` succeeds exactly when the
line contains "joined the game" (the permissive `JOIN_ALT` requires nothing
beyond the phrase, and `JOIN_RX` matches only lines that contain it), and
then `players_online += 1`; otherwise a line containing "left the game" runs
`players_online = max(players_online - 1, 0)`. -/
def detect_step (playersOnline : Int) (line : String) : Int :=
  if containsSub ("joined the game".toList) line.toList then playersOnline + 1
  else if containsSub ("left the game".toList) line.toList then
    max (playersOnline - 1) 0
  else playersOnline

/-! ## Metrics loop (lines 202-215) -/

/-- One cycle of `metrics_loop`'s body (lines 206-215): with population
`pop` and current time `now`, emit (and set `last = now`) only when `pop >
0` and `now - last >= INTERVAL`; a cycle with `pop <= 0` resets `last = 0`.
Returns (emitted this cycle?, new `last`). -/
def metrics_step (interval : Int) (pop : Int) (now : Int) (last : Int) :
    Bool × Int :=
  if pop ≤ 0 then (false, 0)
  else if interval ≤ now - last then (true, now)
  else (false, last)

/-- Run metrics cycles over a list of (population, time) observations,
collecting the emission times. -/
def metrics_run (interval : Int) : List (Int × Int) → Int → List Int × Int
  | [], last => ([], last)
  | (pop, now) :: t, last =>
    let s := metrics_step interval pop now last
    let rest := metrics_run interval t s.2
    (if s.1 then now :: rest.1 else rest.1, rest.2)

/-! ## Query-polling presence tracker (spec §4.2) -/

/-- An event emitted by the query-polling tracker. -/
inductive PollEvent where
  | joined (name : String) (playersOnline : Nat)
  | left (name : String) (playersOnline : Nat)
deriving DecidableEq

/-- Modelled from the spec: the query-polling presence tracker of §4.2 is
not part of src/ (only the log-tailing variant is implemented there), so
this follows the spec's words: on a successful poll compute `arrived =
current − known` and `departed = known − current`, emit one `player_joined`
per arrived name and one `player_left` per departed name, iterating each set
in lexicographic order, each event carrying the new total population count. -/
def poll_events (known current : Finset String) : List PollEvent :=
  (((current \ known).sort (· ≤ ·)).map (fun n => PollEvent.joined n current.card))
    ++ (((known \ current).sort (· ≤ ·)).map (fun n => PollEvent.left n current.card))

/-- Modelled from the spec: one successful poll of §4.2 — emit the diff
events, then set `known = current`. -/
def poll_step (known current : Finset String) : List PollEvent × Finset String :=
  (poll_events known current, current)

/-- Name carried by a `joined` poll event. -/
def joinedName : PollEvent → Option String
  | PollEvent.joined n _ => some n
  | PollEvent.left _ _ => none

/-- Name carried by a `left` poll event. -/
def leftName : PollEvent → Option String
  | PollEvent.joined _ _ => none
  | PollEvent.left n _ => some n

/-! ## Claim theorems -/

theorem popEntry_parses {q : Queue} {k : Nat} {s : List Char} {obj : Json}
    (h : parseDoc s = some obj) : popEntry q (k, s) = (some (k, obj), q) := by
  rw [popEntry, h]

theorem popEntry_corrupt {q : Queue} {k : Nat} {s : List Char}
    (h : parseDoc s = none) :
    popEntry q (k, s) = (none, q.filter (fun e => e.1 != k)) := by
  rw [popEntry, h]

/-- A readable oldest entry is only peeked: the queue is unchanged. -/
theorem queue_pop_one_some_snd {q : Queue} {k : Nat} {obj : Json}
    (h : (queue_pop_one q).1 = some (k, obj)) : (queue_pop_one q).2 = q := by
  have hq1 : queue_pop_one q
      = match queue_list q with
        | [] => (none, q)
        | entry :: _ => popEntry q entry := by
    rw [queue_pop_one]
  rcases hql : queue_list q with _ | ⟨⟨k2, s⟩, t⟩
  · rw [hql] at hq1
    replace hq1 : queue_pop_one q = (none, q) := hq1
    rw [hq1] at h
    simp at h
  · rw [hql] at hq1
    replace hq1 : queue_pop_one q = popEntry q (k2, s) := hq1
    rw [hq1] at h ⊢
    rcases hp : parseDoc s with _ | obj2
    · rw [popEntry_corrupt hp] at h
      simp at h
    · rw [popEntry_parses hp]

/-- C8: For every sequence of log lines, the population counter stays
nonnegative — each matched join adds one, each matched leave subtracts one
with a floor of zero, starting from zero. -/
theorem c8_population_nonneg (lines : List String) :
    0 ≤ lines.foldl detect_step 0 := by
  have key : ∀ (ls : List String) (c : Int), 0 ≤ c → 0 ≤ ls.foldl detect_step c := by
    intro ls
    induction ls with
    | nil => intro c hc; simpa using hc
    | cons line t ih =>
        intro c hc
        rw [List.foldl_cons]
        apply ih
        rw [detect_step]
        split
        · omega
        split
        · exact le_max_right _ _
        · exact hc
  exact key lines 0 le_rfl

/-- C9: pushing any event record to the durable queue and reading the
oldest entry back yields the identical record — the rendered JSON parses
back to the same object, field for field. -/
theorem c9_queue_roundtrip (e : Event) (timeMs : Nat) :
    (queue_pop_one (queue_push timeMs (encodeEvent e) [])).1
      = some (timeMs, encodeEvent e) := by
  show (queue_pop_one [(timeMs, renderJson (encodeEvent e))]).1 = _
  rw [queue_pop_one, queue_list, List.mergeSort_singleton]
  show (popEntry [(timeMs, renderJson (encodeEvent e))]
    (timeMs, renderJson (encodeEvent e))).1 = _
  rw [popEntry_parses (parseDoc_renderJson (encodeEvent e))]

/-- C6: one drain-loop iteration — an empty pop doubles the delay toward
the 30 cap; a failed delivery leaves the queue exactly as it was and doubles
the delay toward the 10 cap; a successful delivery deletes the entry and
resets the delay to 1. -/
theorem c6_drain_backoff (send : Json → Bool) (delay : Nat) (q : Queue) :
    (∀ q1, queue_pop_one q = (none, q1) →
      queue_drain_step send delay q = (min 30 (delay * 2), q1))
    ∧ (∀ k obj, (queue_pop_one q).1 = some (k, obj) →
        (send obj = true → queue_drain_step send delay q = (1, queue_delete k q))
        ∧ (send obj = false →
            queue_drain_step send delay q = (min 10 (delay * 2), q))) := by
  constructor
  · intro q1 h
    rw [queue_drain_step, h]
  · intro k obj h
    have h2 : queue_pop_one q = (some (k, obj), q) := by
      have hs := queue_pop_one_some_snd h
      rw [Prod.ext_iff]
      exact ⟨h, hs⟩
    constructor <;> intro hsend <;> rw [queue_drain_step, h2] <;> simp [hsend]

/-- Witness for C6 at concrete inputs: a one-entry queue drained with a
succeeding send, the same with a failing send, and an empty queue. -/
theorem c6_drain_backoff_witness :
    queue_drain_step (fun _ => true) drainInitialDelay
        [(5, renderJson (startedPayload "beelink-01" 1700000000))]
      = (1, queue_delete 5 [(5, renderJson (startedPayload "beelink-01" 1700000000))])
    ∧ queue_drain_step (fun _ => false) drainInitialDelay
        [(5, renderJson (startedPayload "beelink-01" 1700000000))]
      = (min 10 (drainInitialDelay * 2),
          [(5, renderJson (startedPayload "beelink-01" 1700000000))])
    ∧ queue_drain_step (fun _ => true) 7 []
      = (min 30 (7 * 2), []) := by
  refine ⟨?_, ?_, ?_⟩
  · exact ((c6_drain_backoff (fun _ => true) drainInitialDelay
      [(5, renderJson (startedPayload "beelink-01" 1700000000))]).2
      5 (startedPayload "beelink-01" 1700000000) (by
        rw [queue_pop_one, queue_list, List.mergeSort_singleton]
        show (popEntry [(5, renderJson (startedPayload "beelink-01" 1700000000))]
          (5, renderJson (startedPayload "beelink-01" 1700000000))).1 = _
        rw [popEntry_parses (parseDoc_renderJson _)])).1 rfl
  · exact ((c6_drain_backoff (fun _ => false) drainInitialDelay
      [(5, renderJson (startedPayload "beelink-01" 1700000000))]).2
      5 (startedPayload "beelink-01" 1700000000) (by
        rw [queue_pop_one, queue_list, List.mergeSort_singleton]
        show (popEntry [(5, renderJson (startedPayload "beelink-01" 1700000000))]
          (5, renderJson (startedPayload "beelink-01" 1700000000))).1 = _
        rw [popEntry_parses (parseDoc_renderJson _)])).2 rfl
  · exact (c6_drain_backoff (fun _ => true) 7 []).1 [] (by
      rw [queue_pop_one, queue_list, List.mergeSort_nil])

/-- C10: when the oldest entry is unreadable, `queue_pop_one` deletes that
file and returns the same empty result as an empty queue, so the drain
iteration takes the idle branch: the delay doubles toward the 30 cap
(independently of the send outcome — no delivery is attempted) instead of
resetting to 1 or moving on to the next entry in the same iteration. -/
theorem c10_corrupt_head_idles (send : Json → Bool) (delay k : Nat)
    (s : List Char) (t : Queue) (q : Queue)
    (hsort : queue_list q = (k, s) :: t) (hbad : parseDoc s = none) :
    queue_pop_one q = (none, queue_delete k q)
    ∧ queue_drain_step send delay q = (min 30 (delay * 2), queue_delete k q) := by
  have hpop : queue_pop_one q = (none, queue_delete k q) := by
    rw [queue_pop_one, hsort]
    show popEntry q (k, s) = _
    rw [popEntry_corrupt hbad, queue_delete]
  exact ⟨hpop, by rw [queue_drain_step, hpop]⟩

/-- Witness for C10: a queue whose single entry holds unparseable text. -/
theorem c10_corrupt_head_idles_witness :
    queue_pop_one [(5, "oops".toList)]
      = (none, queue_delete 5 [(5, "oops".toList)])
    ∧ queue_drain_step (fun _ => true) 2 [(5, "oops".toList)]
      = (min 30 (2 * 2), queue_delete 5 [(5, "oops".toList)]) :=
  c10_corrupt_head_idles (fun _ => true) 2 5 "oops".toList [] [(5, "oops".toList)]
    (by rw [queue_list, List.mergeSort_singleton]) rfl

/-- C1 (code evaluated at the failing input): with `DRY_RUN=0`, `INGEST_URL`
configured and `AGENT_KEY` empty, `http_send` does not return failure — the
`RuntimeError` from `sign_body` escapes it (the call is outside the try
block), `send_or_queue` propagates the exception, and the event is NOT
pushed to the durable queue — contradicting the claim that a missing secret
is an ordinary delivery failure handled by queueing. -/
theorem c1_missing_secret_raises_not_queued :
    http_send ⟨"beelink-01", "", "http://ingest.example/api/ingest", false⟩
        (fun _ _ => "") 1700000000 (some 200)
        (startedPayload "beelink-01" 1700000000)
      = Except.error "AGENT_KEY not set"
    ∧ send_or_queue ⟨"beelink-01", "", "http://ingest.example/api/ingest", false⟩
        (fun _ _ => "") 1700000000 (some 200) 1700000000000
        (startedPayload "beelink-01" 1700000000) []
      = Except.error "AGENT_KEY not set" :=
  ⟨rfl, rfl⟩

/-- C2 (code evaluated at the failing input): two pushes in the same
wall-clock millisecond get the same sequence key `int(time.time() * 1000)`,
hence the same file path; `os.replace` overwrites, so after both pushes the
queue holds a single entry — the second event — and the first is lost,
contradicting the claim that sequence keys never collide. -/
theorem c2_same_millisecond_push_overwrites :
    queue_push 1700000000000 (joinedPayload "beelink-01" 1700000000 "bob" 2)
        (queue_push 1700000000000
          (joinedPayload "beelink-01" 1700000000 "alice" 1) [])
      = [(1700000000000,
          renderJson (joinedPayload "beelink-01" 1700000000 "bob" 2))] := by
  rw [queue_push, queue_push]
  simp [List.filter]

/-- C3 counterexample: the startup announcement's kind is the string
"server_started", which is not in the claimed enum
{started, stopped, player_joined, player_left, metrics}. -/
theorem c3_startup_kind_outside_claimed_enum :
    eventKind (startedPayload "beelink-01" 1700000000) = some "server_started"
    ∧ "server_started" ∉ (["started", "stopped", "player_joined",
        "player_left", "metrics"] : List String) :=
  ⟨rfl, by decide⟩

/-- C3 amended: every event the agent emits has kind drawn from
{server_started, server_stopped, player_joined, player_left, metrics}; the
startup announcement has kind "server_started" and the final event sent on a
termination request has kind "server_stopped". -/
theorem c3_amended_event_kinds (e : Event) (sid : String) (ts : Int) :
    (∃ k, eventKind (encodeEvent e) = some k ∧
      k ∈ (["server_started", "server_stopped", "player_joined",
        "player_left", "metrics"] : List String))
    ∧ eventKind (startedPayload sid ts) = some "server_started"
    ∧ eventKind (stoppedPayload sid ts) = some "server_stopped" := by
  refine ⟨?_, rfl, rfl⟩
  cases e with
  | started sid2 ts2 => exact ⟨"server_started", rfl, by decide⟩
  | stopped sid2 ts2 => exact ⟨"server_stopped", rfl, by decide⟩
  | joined sid2 ts2 p o => exact ⟨"player_joined", rfl, by decide⟩
  | left sid2 ts2 p o => exact ⟨"player_left", rfl, by decide⟩
  | metrics sid2 ts2 m o => exact ⟨"metrics", rfl, by decide⟩

/-- C4 counterexample: with `METRIC_INTERVAL = 30`, a metrics event fires at
time 100, a zero-population cycle at 105 resets `last` to 0, and the next
positive-population cycle at 110 emits again — only 10 units after the last
metrics emission, though the claim says no emission happens before the
interval has elapsed since the last one. -/
theorem c4_emission_within_interval_after_reset :
    (metrics_run 30 [(1, 100), (0, 105), (1, 110)] 0).1 = [100, 110]
    ∧ (110 : Int) - 100 < 30 :=
  ⟨rfl, by decide⟩

/-- C4 amended: a cycle emits a metrics event iff the population is positive
and at least the interval has elapsed since the tracked `last` timestamp —
which is the time of the previous emission, except that any cycle observing
a non-positive population resets `last` to 0 (so the first positive cycle
after such a reset can emit regardless of the true time since the last
emission). -/
theorem c4_amended_metrics_gate (interval pop now last : Int) :
    ((metrics_step interval pop now last).1 = true
      ↔ 0 < pop ∧ interval ≤ now - last)
    ∧ (pop ≤ 0 → metrics_step interval pop now last = (false, 0))
    ∧ (0 < pop → interval ≤ now - last →
        metrics_step interval pop now last = (true, now))
    ∧ (0 < pop → now - last < interval →
        metrics_step interval pop now last = (false, last)) := by
  rw [metrics_step]
  by_cases h1 : pop ≤ 0 <;> by_cases h2 : interval ≤ now - last <;> simp [h1, h2]
  all_goals omega

/-- Witness for C4's amended claim at concrete inputs, exercising each
branch. -/
theorem c4_amended_metrics_gate_witness :
    (metrics_step 30 1 100 0).1 = true
    ∧ metrics_step 30 0 105 100 = (false, 0)
    ∧ metrics_step 30 1 110 0 = (true, 110)
    ∧ metrics_step 30 1 115 100 = (false, 100) := by
  refine ⟨?_, ?_, ?_, ?_⟩
  · exact (c4_amended_metrics_gate 30 1 100 0).1.mpr ⟨by decide, by decide⟩
  · exact (c4_amended_metrics_gate 30 0 105 100).2.1 (by decide)
  · exact (c4_amended_metrics_gate 30 1 110 0).2.2.1 (by decide) (by decide)
  · exact (c4_amended_metrics_gate 30 1 115 100).2.2.2 (by decide) (by decide)

theorem filterMap_const_none {α β : Type} (l : List α) :
    l.filterMap (fun _ => (none : Option β)) = [] := by
  induction l with
  | nil => rfl
  | cons a t ih => simp [List.filterMap_cons, ih]

/-- C5 (spec-modelled): a successful poll emits exactly one `player_joined`
per name in `current − known` and exactly one `player_left` per name in
`known − current` (each carrying the new population count), the names in
each group appearing in sorted (lexicographic) order, and afterwards
`known = current`. -/
theorem c5_query_poll_diffing (known current : Finset String) :
    (poll_step known current).2 = current
    ∧ (∀ n, (poll_step known current).1.count
          (PollEvent.joined n current.card)
        = if n ∈ current \ known then 1 else 0)
    ∧ (∀ n, (poll_step known current).1.count
          (PollEvent.left n current.card)
        = if n ∈ known \ current then 1 else 0)
    ∧ (poll_step known current).1.filterMap joinedName
        = (current \ known).sort (· ≤ ·)
    ∧ (poll_step known current).1.filterMap leftName
        = (known \ current).sort (· ≤ ·)
    ∧ List.Sorted (· ≤ ·) ((current \ known).sort (· ≤ ·))
    ∧ List.Sorted (· ≤ ·) ((known \ current).sort (· ≤ ·)) := by
  have hinj1 : Function.Injective (fun n => PollEvent.joined n current.card) := by
    intro a b hab
    simpa using hab
  have hinj2 : Function.Injective (fun n => PollEvent.left n current.card) := by
    intro a b hab
    simpa using hab
  refine ⟨rfl, ?_, ?_, ?_, ?_, Finset.sort_sorted _ _, Finset.sort_sorted _ _⟩
  · intro n
    show (poll_events known current).count _ = _
    rw [poll_events, List.count_append,
      List.count_map_of_injective _ _ hinj1 n]
    have hz : List.count (PollEvent.joined n current.card)
        (((known \ current).sort (· ≤ ·)).map
          (fun n => PollEvent.left n current.card)) = 0 := by
      apply List.count_eq_zero_of_not_mem
      simp
    rw [hz, Nat.add_zero]
    by_cases hn : n ∈ current \ known
    · rw [if_pos hn]
      exact List.count_eq_one_of_mem (Finset.sort_nodup _ _)
        ((Finset.mem_sort _).mpr hn)
    · rw [if_neg hn]
      apply List.count_eq_zero_of_not_mem
      rw [Finset.mem_sort]
      exact hn
  · intro n
    show (poll_events known current).count _ = _
    rw [poll_events, List.count_append,
      List.count_map_of_injective _ _ hinj2 n]
    have hz : List.count (PollEvent.left n current.card)
        (((current \ known).sort (· ≤ ·)).map
          (fun n => PollEvent.joined n current.card)) = 0 := by
      apply List.count_eq_zero_of_not_mem
      simp
    rw [hz, Nat.zero_add]
    by_cases hn : n ∈ known \ current
    · rw [if_pos hn]
      exact List.count_eq_one_of_mem (Finset.sort_nodup _ _)
        ((Finset.mem_sort _).mpr hn)
    · rw [if_neg hn]
      apply List.count_eq_zero_of_not_mem
      rw [Finset.mem_sort]
      exact hn
  · show (poll_events known current).filterMap joinedName = _
    rw [poll_events, List.filterMap_append, List.filterMap_map,
      List.filterMap_map]
    have h1 : (joinedName ∘ fun n => PollEvent.joined n current.card)
        = some := rfl
    have h2 : (joinedName ∘ fun n => PollEvent.left n current.card)
        = fun _ => none := rfl
    rw [h1, h2, List.filterMap_some, filterMap_const_none, List.append_nil]
  · show (poll_events known current).filterMap leftName = _
    rw [poll_events, List.filterMap_append, List.filterMap_map,
      List.filterMap_map]
    have h1 : (leftName ∘ fun n => PollEvent.joined n current.card)
        = fun _ => none := rfl
    have h2 : (leftName ∘ fun n => PollEvent.left n current.card)
        = some := rfl
    rw [h1, h2, List.filterMap_some, filterMap_const_none, List.nil_append]

/-- C7: every real (non-dry-run) send with a configured secret posts the
serialized body bytes with an `X-Signature` header equal to "sha256=" plus
the hex HMAC-SHA256, keyed by the secret, of exactly those body bytes
concatenated with the decimal timestamp string, an `X-Timestamp` header
holding the decimal unix-seconds timestamp, and a JSON content type; the
signed bytes are the transmitted bytes, and the headers are a pure function
of (secret, body, timestamp). -/
theorem c7_signed_request (cfg : AgentConfig)
    (hmacHex : String → List Char → String) (tsNow : Nat) (net : Option Nat)
    (obj : Json) (hdry : cfg.dryRun = false) (hurl : cfg.ingestUrl ≠ "")
    (hkey : cfg.agentKey ≠ "") :
    ∃ req : HttpRequest,
      http_send cfg hmacHex tsNow net obj
        = Except.ok (http_success net, some req)
      ∧ req.url = cfg.ingestUrl
      ∧ req.body = renderJson obj
      ∧ req.headers.xSignature
          = "sha256=" ++ hmacHex cfg.agentKey (req.body ++ (toString tsNow).toList)
      ∧ req.headers.xTimestamp = toString tsNow
      ∧ req.headers.contentType = "application/json" := by
  refine ⟨⟨cfg.ingestUrl, renderJson obj,
    ⟨"sha256=" ++ hmacHex cfg.agentKey (renderJson obj ++ (toString tsNow).toList),
      toString tsNow, "application/json"⟩⟩, ?_, rfl, rfl, rfl, rfl, rfl⟩
  rw [http_send, hdry, sign_body, if_neg hkey]
  simp only [Bool.false_eq_true, if_false, if_neg hurl]

/-- Witness for C7 at a concrete configuration, secret, HMAC function,
timestamp and event. -/
theorem c7_signed_request_witness :
    ∃ req : HttpRequest,
      http_send ⟨"beelink-01", "topsecret", "http://ingest.example/api/ingest",
          false⟩ (fun _ _ => "0011aabb") 1700000000 (some 200)
          (startedPayload "beelink-01" 1700000000)
        = Except.ok (http_success (some 200), some req)
      ∧ req.url = "http://ingest.example/api/ingest"
      ∧ req.body = renderJson (startedPayload "beelink-01" 1700000000)
      ∧ req.headers.xSignature
          = "sha256=" ++ (fun (_ : String) (_ : List Char) => "0011aabb")
              "topsecret" (req.body ++ (toString 1700000000).toList)
      ∧ req.headers.xTimestamp = toString 1700000000
      ∧ req.headers.contentType = "application/json" :=
  c7_signed_request ⟨"beelink-01", "topsecret",
      "http://ingest.example/api/ingest", false⟩
    (fun _ _ => "0011aabb") 1700000000 (some 200)
    (startedPayload "beelink-01" 1700000000)
    rfl (by decide) (by decide)

end MCAgent
